import Mathlib

/-!
Verification of the Confocal-LUV data-reduction scripts.

The repository is a set of independent Python scripts for reducing
confocal-microscopy intensity time series.  The numeric core consists of
threshold-event counting (`count_events_above_threshold`), the batch file
loaders (`load_files`, `load_files_A`), the version-suffixed output filename
search (`get_unique_filename`, `get_next_filename`), the Hill saturation
curve (`hill_equation`) and the positivity filter of the Hill-fit script
(`valid_indices`).  Each is embedded below as a Lean function translated
from the corresponding Python definition.  Sample intensities and parsed
fields are modelled as exact rationals (the scripts use float32 data), and
the Hill curve is modelled over the reals with real exponentiation, since
its parameters are arbitrary floats.  The filesystem seen by a script is
modelled explicitly: as a partial map from filenames to file contents for
the loaders, and as an existence predicate on paths for the filename search.
-/

open Filter Topology

/-- Embedding of `count_events_above_threshold(channelA_arr, threshold)`
from `Raw_Data_Threshold_xlsx_Export.py`: `np.sum(channelA_arr > threshold)`
sums the elementwise Boolean comparison, counting each `True` as `1`. -/
def count_events_above_threshold (channelA_arr : List ℚ) (threshold : ℚ) : ℕ :=
  (channelA_arr.map (fun v => if threshold < v then 1 else 0)).sum

/-- Embedding of `hill_equation(x, Vmax, Kd, n)` from
`Raw_Data_Plot_Hill_Fit.py`: `(Vmax * x**n) / (Kd**n + x**n)`, read over the
reals with real-exponent power (the parameters are arbitrary floats in the
script, so the exponent is a real number, not a natural number).  The model
and the program agree wherever the program returns a value from a positive
base and a nonzero denominator; on the program's error paths the total
model returns junk instead of raising (`0.0 ** n` for `n < 0` raises
`ZeroDivisionError` in Python while `Real.rpow` gives `0`, and a zero
denominator raises while real division gives `0`), so theorems below stay,
via their hypotheses, inside the region of agreement. -/
noncomputable def hill_equation (x Vmax Kd n : ℝ) : ℝ :=
  (Vmax * x ^ n) / (Kd ^ n + x ^ n)

/-- A parsed row of a tab-delimited data file: the numeric fields of the
row in order.  The scripts read string fields and convert them with
`float(...)`; fields are modelled as exact rationals, so a field that is
present is numeric, and a missing field (`IndexError` on `row[k]`) is the
row-level failure that remains. -/
abbrev Row := List ℚ

/-- Model of the filesystem a script sees: a map sending a data filename to
its parsed rows when the file exists, and to `none` when it is missing. -/
abbrev FileSystem := String → Option (List Row)

/-- Embedding of `os.path.join(path, filename)` with a fixed separator. -/
def pathJoin (path filename : String) : String := path ++ "/" ++ filename

/-- Embedding of the format specifier `{m:02d}`: decimal, zero-padded to
width two. -/
def pad2 (m : ℕ) : String := if m < 10 then "0" ++ toString m else toString m

/-- Filename of the `i`-th file of a batch (0-based), exactly as both
`load_files` (`Raw_Data_Threshold_xlsx_Export.py`) and `load_files_A`
(`Raw_Data_Plot.py`, `Raw_Data_Histogram_Plot.py`) build it: the bare stem
for the first file, and `stem_NN` with `NN = i + 1` zero-padded to two
digits for the later files, joined onto the data directory. -/
def dataFilename (path file_stem : String) (i : ℕ) : String :=
  if i = 0 then pathJoin path file_stem
  else pathJoin path (file_stem ++ "_" ++ pad2 (i + 1))

/-- Reading `float(row[0])` for every row of a file, as `load_files_A`
does: an empty row raises `IndexError`. -/
def readFirstFields : List Row → Except String (List ℚ)
  | [] => .ok []
  | r :: rs =>
    match r.head? with
    | none => .error "IndexError"
    | some v => do
      let vs ← readFirstFields rs
      .ok (v :: vs)

/-- Reading `float(row[0])` and `float(row[1])` for every row of a file, as
`load_files` does: a row with fewer than two fields raises `IndexError`. -/
def readPairFields : List Row → Except String (List (ℚ × ℚ))
  | [] => .ok []
  | r :: rs =>
    match r.head?, r[1]? with
    | some a, some b => do
      let ps ← readPairFields rs
      .ok ((a, b) :: ps)
    | _, _ => .error "IndexError"

/-- Loop body of `load_files_A` over the remaining batch filenames: each
file is opened with no existence check, so a missing file raises
`FileNotFoundError` and aborts the batch; otherwise `float(row[0])` of
every row is appended to the single accumulated channel-A list. -/
def load_files_A_go (fs : FileSystem) : List String → Except String (List ℚ)
  | [] => .ok []
  | f :: rest =>
    match fs f with
    | none => .error ("FileNotFoundError: " ++ f)
    | some rows => do
      let vs ← readFirstFields rows
      let tail ← load_files_A_go fs rest
      .ok (vs ++ tail)

/-- The list of batch filenames a loader iterates over: the loop
`for i in range(number_of_files)` visits `dataFilename path stem i` for
`i = 0, ..., number_of_files - 1` in order. -/
def batchFilenames (path file_stem : String) (number_of_files : ℕ) : List String :=
  (List.range number_of_files).map (dataFilename path file_stem)

/-- Embedding of `load_files_A(number_of_files)` from `Raw_Data_Plot.py`
(the identical definition appears in `Raw_Data_Histogram_Plot.py`): iterate
`i` over `range(number_of_files)` and read column 0 of every row of the
`i`-th batch file into one list, which the script then converts to a
float32 array. -/
def load_files_A (fs : FileSystem) (path_A file_stem_A : String)
    (number_of_files : ℕ) : Except String (List ℚ) :=
  load_files_A_go fs (batchFilenames path_A file_stem_A number_of_files)

/-- Loop body of `load_files` over the remaining batch filenames: a missing
file is reported (`print`, modelled as the returned message log) and
skipped; an existing file contributes `float(row[0])` to channel A and
`float(row[1])` to channel B for every row. -/
def load_files_go (fs : FileSystem) :
    List String → Except String (List String × List ℚ × List ℚ)
  | [] => .ok ([], [], [])
  | f :: rest =>
    match fs f with
    | none => do
      let (log, a, b) ← load_files_go fs rest
      .ok (("File does not exist: " ++ f) :: log, a, b)
    | some rows => do
      let ps ← readPairFields rows
      let (log, a, b) ← load_files_go fs rest
      .ok (log, ps.map Prod.fst ++ a, ps.map Prod.snd ++ b)

/-- Embedding of `load_files(file_stem)` from
`Raw_Data_Threshold_xlsx_Export.py`: iterate `i` over
`range(number_of_files)`; when the `i`-th batch file is missing, print a
message naming it and continue; otherwise append both channel columns of
its rows.  The printed messages are returned as a log alongside the two
channel lists. -/
def load_files (fs : FileSystem) (path_A file_stem : String)
    (number_of_files : ℕ) : Except String (List String × List ℚ × List ℚ) :=
  load_files_go fs (batchFilenames path_A file_stem number_of_files)

/-- Model of `os.path.exists`: the set of paths that currently exist. -/
abbrev PathSet := String → Bool

/-- The `k`-th filename tried by `get_unique_filename`
(`Raw_Data_Threshold_xlsx_Export.py`): the bare `base_filename.extension`
before the loop runs (`k = 1`), and `base_filename_vk.extension` once the
loop has incremented the version to `k ≥ 2`. -/
def uniqueCandidate (path base_filename extension : String) (k : ℕ) : String :=
  if k = 1 then pathJoin path (base_filename ++ "." ++ extension)
  else pathJoin path (base_filename ++ "_v" ++ toString k ++ "." ++ extension)

/-- The `while os.path.exists(file_path)` loop of `get_unique_filename`,
currently at version `k`: while the candidate exists, increment the
version.  The Python loop is unbounded, so the model carries a fuel bound
and returns `none` only when the fuel runs out. -/
def get_unique_filename_loop (ex : PathSet) (path base_filename extension : String)
    (k : ℕ) : ℕ → Option String
  | 0 => none
  | fuel + 1 =>
    if ex (uniqueCandidate path base_filename extension k) then
      get_unique_filename_loop ex path base_filename extension (k + 1) fuel
    else some (uniqueCandidate path base_filename extension k)

/-- Embedding of `get_unique_filename(path, base_filename, extension)` from
`Raw_Data_Threshold_xlsx_Export.py`: start at version 1 with the bare
filename and search upward for a candidate that does not exist. -/
def get_unique_filename (ex : PathSet) (path base_filename extension : String)
    (fuel : ℕ) : Option String :=
  get_unique_filename_loop ex path base_filename extension 1 fuel

/-- The `k`-th filename tried by `get_next_filename` (`Raw_Data_Plot.py`):
`base_filename_vk.svg`, starting at `k = 1`. -/
def nextCandidate (base_filename : String) (k : ℕ) : String :=
  base_filename ++ "_v" ++ toString k ++ ".svg"

/-- The `while os.path.exists(...)` loop of `get_next_filename`, currently
at version `k`, with the same fuel bound as above. -/
def get_next_filename_loop (ex : PathSet) (base_filename : String)
    (k : ℕ) : ℕ → Option String
  | 0 => none
  | fuel + 1 =>
    if ex (nextCandidate base_filename k) then
      get_next_filename_loop ex base_filename (k + 1) fuel
    else some (nextCandidate base_filename k)

/-- Embedding of `get_next_filename(base_filename)` from
`Raw_Data_Plot.py`: search upward from version 1 for a versioned SVG
filename that does not exist. -/
def get_next_filename (ex : PathSet) (base_filename : String) (fuel : ℕ) : Option String :=
  get_next_filename_loop ex base_filename 1 fuel

/-- Embedding of `valid_indices = x > 0` from `Raw_Data_Plot_Hill_Fit.py`:
the elementwise Boolean mask comparing the `Conc` column with `0`. -/
def valid_indices (x : List ℚ) : List Bool := x.map (fun v => decide (0 < v))

/-- Pandas Boolean-mask selection `s[mask]`, as used in
`x = x[valid_indices]`, `y = y[valid_indices]`, `y_sd = y_sd[valid_indices]`:
keep the entries of the series at the positions where the mask is `True`. -/
def maskSelect (mask : List Bool) (s : List ℚ) : List ℚ :=
  ((mask.zip s).filter (fun p => p.1)).map (fun p => p.2)

/-- C1: for every numeric array and threshold, the event count equals the
number of elements strictly greater than the threshold; an element equal to
the threshold is not counted. -/
theorem count_events_eq_card_gt (a : List ℚ) (t : ℚ) :
    count_events_above_threshold a t = (a.filter (fun v => t < v)).length := by
  induction a with
  | nil => rfl
  | cons x xs ih =>
    by_cases h : t < x <;>
      simp [count_events_above_threshold, List.filter, h, List.sum_cons] at ih ⊢ <;>
      omega

/-- C2: for a fixed array, the event count is monotonically non-increasing
in the threshold: raising the threshold never increases the count. -/
theorem count_events_antitone (a : List ℚ) (t1 t2 : ℚ) (h : t1 ≤ t2) :
    count_events_above_threshold a t2 ≤ count_events_above_threshold a t1 := by
  induction a with
  | nil => exact le_refl _
  | cons x xs ih =>
    by_cases h2 : t2 < x
    · have h1 : t1 < x := lt_of_le_of_lt h h2
      simpa [count_events_above_threshold, h1, h2] using ih
    · by_cases h1 : t1 < x <;>
        simp [count_events_above_threshold, h1, h2] at ih ⊢ <;> omega

/-- C2 witness at a concrete array and threshold pair. -/
theorem count_events_antitone_witness :
    count_events_above_threshold [(1 : ℚ), 5, 10] 7 ≤
      count_events_above_threshold [(1 : ℚ), 5, 10] 3 :=
  count_events_antitone [(1 : ℚ), 5, 10] 3 7 (by norm_num)

/-- C3: the event count of the empty array is `0` for every threshold, and
the event count of an array all of whose elements are at most the threshold
is `0`. -/
theorem count_events_empty_or_below (t : ℚ) (a : List ℚ) :
    count_events_above_threshold [] t = 0 ∧
      ((∀ v ∈ a, v ≤ t) → count_events_above_threshold a t = 0) := by
  refine ⟨rfl, fun hall => ?_⟩
  induction a with
  | nil => rfl
  | cons x xs ih =>
    have hx : ¬ t < x := not_lt.mpr (hall x (by simp))
    have hxs : ∀ v ∈ xs, v ≤ t := fun v hv => hall v (by simp [hv])
    simpa [count_events_above_threshold, hx] using ih hxs

/-- C3 witness: a concrete all-below-threshold array yields count `0`. -/
theorem count_events_empty_or_below_witness :
    count_events_above_threshold [] (5 : ℚ) = 0 ∧
      count_events_above_threshold [(1 : ℚ), 5, 2] 5 = 0 := by
  have h := count_events_empty_or_below 5 [(1 : ℚ), 5, 2]
  exact ⟨h.1, h.2 (by norm_num)⟩

/-- C5 counterexample: at slope `n = 0` the Hill curve evaluated at `x = 0`
is `Vmax / 2`, not `0` (since `0 ** 0 = 1`), so the claim fails for the
parameter choice `Vmax = 1`, `Kd = 1`, `n = 0`. -/
theorem hill_equation_zero_counterexample : hill_equation 0 1 1 0 ≠ 0 := by
  simp [hill_equation, Real.rpow_zero]

/-- C5 amended: for every `Vmax`, every `Kd > 0` and every positive slope
`n`, the Hill curve evaluated at `x = 0` is `0`.  Outside this region the
program does not return `0` at `x = 0`: at `n = 0` it returns `Vmax / 2`
(the counterexample), and at `n < 0` (`0.0 ** n`) or `Kd = 0` (zero
denominator) it raises `ZeroDivisionError` instead of returning. -/
theorem hill_equation_at_zero (Vmax Kd n : ℝ) (_hK : 0 < Kd) (hn : 0 < n) :
    hill_equation 0 Vmax Kd n = 0 := by
  rw [hill_equation, Real.zero_rpow hn.ne', mul_zero, add_zero, zero_div]

/-- C5 witness: the amended claim instantiated at `Vmax = 1`, `Kd = 1`,
`n = 1`. -/
theorem hill_equation_at_zero_witness : hill_equation 0 1 1 1 = 0 :=
  hill_equation_at_zero 1 1 1 (by norm_num) (by norm_num)

/-- C6: for positive `Kd` and positive slope `n`, the Hill curve tends to
the asymptote `Vmax` as `x` grows without bound. -/
theorem hill_equation_tendsto_Vmax (Vmax Kd n : ℝ) (hK : 0 < Kd) (hn : 0 < n) :
    Tendsto (fun x => hill_equation x Vmax Kd n) atTop (nhds Vmax) := by
  have hx : Tendsto (fun x : ℝ => x ^ n) atTop atTop := tendsto_rpow_atTop hn
  have hinv : Tendsto (fun x : ℝ => (x ^ n)⁻¹) atTop (nhds 0) := hx.inv_tendsto_atTop
  have hden : Tendsto (fun x : ℝ => Kd ^ n * (x ^ n)⁻¹ + 1) atTop (nhds 1) := by
    have h2 := (hinv.const_mul (Kd ^ n)).add_const 1
    simpa using h2
  have hmain : Tendsto (fun x : ℝ => Vmax / (Kd ^ n * (x ^ n)⁻¹ + 1)) atTop (nhds Vmax) := by
    have h3 := Filter.Tendsto.div (tendsto_const_nhds (x := Vmax)) hden one_ne_zero
    simpa using h3
  refine hmain.congr' ?_
  filter_upwards [eventually_gt_atTop (0 : ℝ)] with x hx0
  have hxn : (0 : ℝ) < x ^ n := Real.rpow_pos_of_pos hx0 n
  have hKn : (0 : ℝ) < Kd ^ n := Real.rpow_pos_of_pos hK n
  have h1 : (x : ℝ) ^ n ≠ 0 := ne_of_gt hxn
  have h2 : (Kd : ℝ) ^ n + x ^ n ≠ 0 := ne_of_gt (add_pos hKn hxn)
  simp only [hill_equation]
  field_simp

/-- C6 witness: the limit statement instantiated at `Vmax = 2`, `Kd = 1`,
`n = 1`. -/
theorem hill_equation_tendsto_Vmax_witness :
    Tendsto (fun x => hill_equation x 2 1 1) atTop (nhds 2) :=
  hill_equation_tendsto_Vmax 2 1 1 (by norm_num) (by norm_num)

/-- C7: for every `Vmax`, every `Kd > 0` and every slope `n`, the Hill
curve evaluated at the midpoint `x = Kd` is half-maximal, `Vmax / 2`,
independent of the slope. -/
theorem hill_equation_half_max (Vmax Kd n : ℝ) (hK : 0 < Kd) :
    hill_equation Kd Vmax Kd n = Vmax / 2 := by
  have h : (0 : ℝ) < Kd ^ n := Real.rpow_pos_of_pos hK n
  have hne : (Kd : ℝ) ^ n + Kd ^ n ≠ 0 := ne_of_gt (add_pos h h)
  simp only [hill_equation]
  rw [div_eq_div_iff hne two_ne_zero]
  ring

/-- C7 witness: with `Vmax = 1`, `Kd = 1`, `n = 1` and `x = 1` the Hill
curve returns `0.5`. -/
theorem hill_equation_half_max_witness : hill_equation 1 1 1 1 = 1 / 2 :=
  hill_equation_half_max 1 1 1 (by norm_num)

/-- On a file whose rows are all nonempty, `readFirstFields` succeeds and
returns the first field of every row in order. -/
lemma readFirstFields_spec (rows : List Row) (h : ∀ r ∈ rows, r ≠ []) :
    readFirstFields rows = .ok (rows.filterMap (fun r => r.head?)) := by
  induction rows with
  | nil => rfl
  | cons r rs ih =>
    match r, h r (by simp) with
    | v :: t, _ =>
      have ih2 := ih (fun r hr => h r (by simp [hr]))
      simp [readFirstFields, List.filterMap_cons, ih2, Bind.bind, Except.bind]

/-- On a file whose rows all have at least two fields, `readPairFields`
succeeds and returns the first two fields of every row in order. -/
lemma readPairFields_spec (rows : List Row) (h : ∀ r ∈ rows, 2 ≤ r.length) :
    ∃ ps, readPairFields rows = .ok ps ∧
      ps.map Prod.fst = rows.filterMap (fun r => r.head?) ∧
      ps.map Prod.snd = rows.filterMap (fun r => r[1]?) ∧
      ps.length = rows.length := by
  induction rows with
  | nil => exact ⟨[], rfl, rfl, rfl, rfl⟩
  | cons r rs ih =>
    match r, h r (by simp) with
    | a :: b :: t, _ =>
      obtain ⟨ps, hps, h1, h2, h3⟩ := ih (fun r hr => h r (by simp [hr]))
      refine ⟨(a, b) :: ps, ?_, ?_, ?_, ?_⟩
      · simp [readPairFields, hps, Bind.bind, Except.bind]
      · simp [List.filterMap_cons, h1]
      · simp [List.filterMap_cons, h2]
      · simp [h3]

/-- When every listed file exists and all its rows are nonempty, the
`load_files_A` loop succeeds and returns the concatenation, in file order,
of the first fields of the rows of each file. -/
lemma load_files_A_go_ok (fs : FileSystem) (files : List String)
    (h : ∀ f ∈ files, ∃ rows, fs f = some rows ∧ ∀ r ∈ rows, r ≠ []) :
    load_files_A_go fs files =
      .ok ((files.filterMap fs).flatten.filterMap (fun r => r.head?)) := by
  induction files with
  | nil => rfl
  | cons f rest ih =>
    obtain ⟨rows, hfs, hne⟩ := h f (by simp)
    have ih2 := ih (fun g hg => h g (by simp [hg]))
    simp [load_files_A_go, hfs, readFirstFields_spec rows hne, ih2,
      List.filterMap_cons, List.filterMap_append, Bind.bind, Except.bind]

/-- When the listed files start with a block of existing well-formed files
followed by a missing file, the `load_files_A` loop aborts with a
file-not-found error naming the missing file. -/
lemma load_files_A_go_error (fs : FileSystem) (pre post : List String) (f : String)
    (hpre : ∀ g ∈ pre, ∃ rows, fs g = some rows ∧ ∀ r ∈ rows, r ≠ [])
    (hf : fs f = none) :
    load_files_A_go fs (pre ++ f :: post) = .error ("FileNotFoundError: " ++ f) := by
  induction pre with
  | nil => simp [load_files_A_go, hf]
  | cons g pre ih =>
    obtain ⟨rows, hfs, hne⟩ := hpre g (by simp)
    have ih2 := ih (fun g' hg => hpre g' (by simp [hg]))
    simp [load_files_A_go, hfs, readFirstFields_spec rows hne, ih2,
      Bind.bind, Except.bind]

/-- When every existing listed file has only rows with at least two fields,
the `load_files` loop succeeds, logs one message naming each missing file,
and returns, for each channel, the concatenation in file order of that
channel's fields over the rows of the existing files. -/
lemma load_files_go_ok (fs : FileSystem) (files : List String)
    (hwf : ∀ f ∈ files, ∀ r ∈ (fs f).getD [], 2 ≤ r.length) :
    load_files_go fs files =
      .ok ((files.filter (fun f => (fs f).isNone)).map
             (fun f => "File does not exist: " ++ f),
           (files.filterMap fs).flatten.filterMap (fun r => r.head?),
           (files.filterMap fs).flatten.filterMap (fun r => r[1]?)) := by
  induction files with
  | nil => rfl
  | cons f rest ih =>
    have ih2 := ih (fun g hg => hwf g (by simp [hg]))
    cases hfs : fs f with
    | none =>
      simp [load_files_go, hfs, ih2, List.filterMap_cons, List.filter_cons,
        Bind.bind, Except.bind]
    | some rows =>
      have hrows : ∀ r ∈ rows, 2 ≤ r.length := by
        have := hwf f (by simp)
        simpa [hfs] using this
      obtain ⟨ps, hps, h1, h2, h3⟩ := readPairFields_spec rows hrows
      simp [load_files_go, hfs, hps, ih2, List.filterMap_cons, List.filter_cons,
        List.filterMap_append, h1, h2, Bind.bind, Except.bind]

/-- Splitting the batch filename list at the `i`-th file. -/
lemma batchFilenames_decomp (path stem : String) (i n : ℕ) (hi : i < n) :
    batchFilenames path stem n =
      batchFilenames path stem i ++
        (dataFilename path stem i ::
          ((List.range (n - i - 1)).map (fun k => dataFilename path stem (i + 1 + k)))) := by
  obtain ⟨k, rfl⟩ : ∃ k, n = i + (k + 1) := ⟨n - i - 1, by omega⟩
  have hk : i + (k + 1) - i - 1 = k := by omega
  unfold batchFilenames
  rw [hk, List.range_add, List.map_append]
  congr 1
  rw [List.range_succ_eq_map, List.map_cons, List.map_map, List.map_cons, List.map_map]
  congr 1
  congr 1
  funext x
  simp only [Function.comp]
  congr 1
  omega

/-- Reading the first field of every row loses no row when all rows are
nonempty. -/
lemma filterMap_headq_length (ls : List Row) (h : ∀ r ∈ ls, r ≠ []) :
    (ls.filterMap (fun r => r.head?)).length = ls.length := by
  induction ls with
  | nil => rfl
  | cons r rs ih =>
    match r, h r (by simp) with
    | v :: t, _ =>
      have ih2 := ih (fun r hr => h r (by simp [hr]))
      simp [List.filterMap_cons, ih2]

/-- C4 counterexample: a batch of two files whose second file is missing.
Contrary to the claim, `load_files_A` does not skip the missing file and
return the rows of the existing one; it aborts the batch with a
file-not-found error. -/
theorem load_files_A_aborts_on_missing :
    load_files_A (fun f => if f = "D/run" then some [[3]] else none) "D" "run" 2 ≠
        Except.ok [(3 : ℚ)] ∧
      load_files_A (fun f => if f = "D/run" then some [[3]] else none) "D" "run" 2 =
        Except.error "FileNotFoundError: D/run_02" :=
  ⟨fun h => Except.noConfusion h, rfl⟩

/-- C4 amended: of the repository's two loaders, only `load_files`
(`Raw_Data_Threshold_xlsx_Export.py`) reports a missing batch file and
continues, returning the concatenated rows of the files that do exist
together with one message per missing file; `load_files_A`
(`Raw_Data_Plot.py` and `Raw_Data_Histogram_Plot.py`) opens each file with
no existence check, so the batch aborts with a file-not-found error at the
first missing file. -/
theorem load_files_missing_file_behaviour (fs : FileSystem) (path stem : String)
    (n i : ℕ)
    (hwf : ∀ j < n, ∀ r ∈ (fs (dataFilename path stem j)).getD [], 2 ≤ r.length)
    (hi : i < n)
    (hmiss : fs (dataFilename path stem i) = none)
    (hpre : ∀ j < i, (fs (dataFilename path stem j)).isSome ∧
        ∀ r ∈ (fs (dataFilename path stem j)).getD [], r ≠ []) :
    load_files fs path stem n =
        Except.ok
          (((batchFilenames path stem n).filter (fun f => (fs f).isNone)).map
              (fun f => "File does not exist: " ++ f),
            ((batchFilenames path stem n).filterMap fs).flatten.filterMap
              (fun r => r.head?),
            ((batchFilenames path stem n).filterMap fs).flatten.filterMap
              (fun r => r[1]?)) ∧
      load_files_A fs path stem n =
        Except.error ("FileNotFoundError: " ++ dataFilename path stem i) := by
  constructor
  · apply load_files_go_ok
    intro f hf
    simp only [batchFilenames, List.mem_map, List.mem_range] at hf
    obtain ⟨j, hj, rfl⟩ := hf
    exact hwf j hj
  · unfold load_files_A
    rw [batchFilenames_decomp path stem i n hi]
    apply load_files_A_go_error
    · intro g hg
      simp only [batchFilenames, List.mem_map, List.mem_range] at hg
      obtain ⟨j, hj, rfl⟩ := hg
      obtain ⟨hs, hne⟩ := hpre j hj
      obtain ⟨rows, hrows⟩ := Option.isSome_iff_exists.mp hs
      exact ⟨rows, hrows, by simpa [hrows] using hne⟩
    · exact hmiss

/-- C4 witness: the amended behaviour at a concrete two-file batch whose
second file is missing. -/
theorem load_files_missing_file_behaviour_witness :
    load_files (fun f => if f = "D/run" then some [[1, 2]] else none) "D" "run" 2 =
        Except.ok (["File does not exist: D/run_02"], [(1 : ℚ)], [(2 : ℚ)]) ∧
      load_files_A (fun f => if f = "D/run" then some [[1, 2]] else none) "D" "run" 2 =
        Except.error "FileNotFoundError: D/run_02" := by
  have h := load_files_missing_file_behaviour
      (fun f => if f = "D/run" then some [[1, 2]] else none) "D" "run" 2 1
      (by decide) (by decide) (by decide) (by decide)
  refine ⟨?_, ?_⟩
  · rw [h.1]; rfl
  · rw [h.2]; rfl

/-- C8: when every batch file exists and each of its rows has at least two
fields (a numeric first field followed by a tab-separated second one),
`load_files_A` succeeds and returns exactly the first field of every row in
file-then-row order, one element per row (the script then converts this
list to a float32 array); under the same hypothesis `load_files` also
succeeds, logs nothing, and returns the first and second fields of every
row in the same order as channels A and B. -/
theorem loaders_parse_all_rows (fs : FileSystem) (path stem : String) (n : ℕ)
    (hex : ∀ j < n, (fs (dataFilename path stem j)).isSome ∧
        ∀ r ∈ (fs (dataFilename path stem j)).getD [], 2 ≤ r.length) :
    load_files_A fs path stem n =
        Except.ok (((batchFilenames path stem n).filterMap fs).flatten.filterMap
          (fun r => r.head?)) ∧
      (((batchFilenames path stem n).filterMap fs).flatten.filterMap
          (fun r => r.head?)).length =
        ((batchFilenames path stem n).filterMap fs).flatten.length ∧
      load_files fs path stem n =
        Except.ok ([],
          ((batchFilenames path stem n).filterMap fs).flatten.filterMap
            (fun r => r.head?),
          ((batchFilenames path stem n).filterMap fs).flatten.filterMap
            (fun r => r[1]?)) := by
  have hmem : ∀ f ∈ batchFilenames path stem n,
      ∃ rows, fs f = some rows ∧ ∀ r ∈ rows, 2 ≤ r.length := by
    intro f hf
    simp only [batchFilenames, List.mem_map, List.mem_range] at hf
    obtain ⟨j, hj, rfl⟩ := hf
    obtain ⟨hs, hlen⟩ := hex j hj
    obtain ⟨rows, hrows⟩ := Option.isSome_iff_exists.mp hs
    exact ⟨rows, hrows, by simpa [hrows] using hlen⟩
  have hne : ∀ f ∈ batchFilenames path stem n,
      ∃ rows, fs f = some rows ∧ ∀ r ∈ rows, r ≠ [] := by
    intro f hf
    obtain ⟨rows, hrows, hlen⟩ := hmem f hf
    refine ⟨rows, hrows, fun r hr hnil => ?_⟩
    have := hlen r hr
    simp [hnil] at this
  refine ⟨load_files_A_go_ok fs _ hne, ?_, ?_⟩
  · apply filterMap_headq_length
    intro r hr
    rw [List.mem_flatten] at hr
    obtain ⟨rows, hrowsmem, hrmem⟩ := hr
    rw [List.mem_filterMap] at hrowsmem
    obtain ⟨f, hfmem, hfs⟩ := hrowsmem
    obtain ⟨rows2, hrows2, hne2⟩ := hne f hfmem
    injection hfs.symm.trans hrows2 with heq
    exact hne2 r (heq ▸ hrmem)
  · have hwf : ∀ f ∈ batchFilenames path stem n, ∀ r ∈ (fs f).getD [], 2 ≤ r.length := by
      intro f hf
      obtain ⟨rows, hrows, hlen⟩ := hmem f hf
      simpa [hrows] using hlen
    have hnil : (batchFilenames path stem n).filter (fun f => (fs f).isNone) = [] := by
      rw [List.filter_eq_nil_iff]
      intro f hf
      obtain ⟨rows, hrows, _⟩ := hmem f hf
      simp [hrows]
    unfold load_files
    rw [load_files_go_ok fs (batchFilenames path stem n) hwf, hnil, List.map_nil]

/-- C8 witness: a concrete two-file batch in which the first file has one
row and the second has two rows, each row with two numeric fields. -/
theorem loaders_parse_all_rows_witness :
    load_files_A
        (fun f => if f = "D/run" then some [[1, 2]]
          else if f = "D/run_02" then some [[3, 4], [5, 6]] else none)
        "D" "run" 2 = Except.ok [(1 : ℚ), 3, 5] ∧
      load_files
        (fun f => if f = "D/run" then some [[1, 2]]
          else if f = "D/run_02" then some [[3, 4], [5, 6]] else none)
        "D" "run" 2 = Except.ok ([], [(1 : ℚ), 3, 5], [(2 : ℚ), 4, 6]) := by
  have h := loaders_parse_all_rows
      (fun f => if f = "D/run" then some [[1, 2]]
        else if f = "D/run_02" then some [[3, 4], [5, 6]] else none)
      "D" "run" 2 (by decide)
  exact ⟨by rw [h.1]; rfl, by rw [h.2.2]; rfl⟩

/-- The `get_unique_filename` loop returns the first free candidate at or
after its starting version, provided one is in reach of the fuel. -/
lemma get_unique_filename_loop_spec (ex : PathSet) (path base ext : String)
    (j : ℕ) : ∀ start fuel : ℕ, j < fuel →
    ex (uniqueCandidate path base ext (start + j)) = false →
    (∀ m < j, ex (uniqueCandidate path base ext (start + m)) = true) →
    get_unique_filename_loop ex path base ext start fuel =
      some (uniqueCandidate path base ext (start + j)) := by
  induction j with
  | zero =>
    intro start fuel hj hfree _
    match fuel, hj with
    | fuel + 1, _ =>
      rw [Nat.add_zero] at hfree
      simp [get_unique_filename_loop, hfree]
  | succ j ih =>
    intro start fuel hj hfree hbusy
    match fuel, hj with
    | fuel + 1, _ =>
      have h0 : ex (uniqueCandidate path base ext start) = true := by
        simpa using hbusy 0 (Nat.succ_pos j)
      have heq : start + 1 + j = start + (j + 1) := by omega
      simp only [get_unique_filename_loop, h0, if_true]
      rw [ih (start + 1) fuel (by omega) (by rw [heq]; exact hfree)
          (fun m hm => by
            have h := hbusy (m + 1) (by omega)
            rwa [show start + (m + 1) = start + 1 + m by omega] at h)]
      rw [heq]

/-- The `get_next_filename` loop returns the first free candidate at or
after its starting version, provided one is in reach of the fuel. -/
lemma get_next_filename_loop_spec (ex : PathSet) (base : String)
    (j : ℕ) : ∀ start fuel : ℕ, j < fuel →
    ex (nextCandidate base (start + j)) = false →
    (∀ m < j, ex (nextCandidate base (start + m)) = true) →
    get_next_filename_loop ex base start fuel =
      some (nextCandidate base (start + j)) := by
  induction j with
  | zero =>
    intro start fuel hj hfree _
    match fuel, hj with
    | fuel + 1, _ =>
      rw [Nat.add_zero] at hfree
      simp [get_next_filename_loop, hfree]
  | succ j ih =>
    intro start fuel hj hfree hbusy
    match fuel, hj with
    | fuel + 1, _ =>
      have h0 : ex (nextCandidate base start) = true := by
        simpa using hbusy 0 (Nat.succ_pos j)
      have heq : start + 1 + j = start + (j + 1) := by omega
      simp only [get_next_filename_loop, h0, if_true]
      rw [ih (start + 1) fuel (by omega) (by rw [heq]; exact hfree)
          (fun m hm => by
            have h := hbusy (m + 1) (by omega)
            rwa [show start + (m + 1) = start + 1 + m by omega] at h)]
      rw [heq]

/-- C9: when the first free version of each naming scheme is within the
modelled iteration bound, `get_unique_filename` returns exactly the first
free candidate of the scheme `base.ext`, `base_v2.ext`, `base_v3.ext`, ...
and that path does not exist at the time of return, so the subsequent
Excel export overwrites nothing; likewise `get_next_filename` returns the
first `base_vK.svg` with `K ≥ 1` that does not exist. -/
theorem versioned_filenames_are_fresh (ex : PathSet)
    (path base ext bsvg : String) (j1 j2 fuel : ℕ)
    (h1 : j1 < fuel) (h2 : j2 < fuel)
    (hfree1 : ex (uniqueCandidate path base ext (1 + j1)) = false)
    (hbusy1 : ∀ m < j1, ex (uniqueCandidate path base ext (1 + m)) = true)
    (hfree2 : ex (nextCandidate bsvg (1 + j2)) = false)
    (hbusy2 : ∀ m < j2, ex (nextCandidate bsvg (1 + m)) = true) :
    (get_unique_filename ex path base ext fuel =
        some (uniqueCandidate path base ext (1 + j1)) ∧
      ex (uniqueCandidate path base ext (1 + j1)) = false) ∧
    (get_next_filename ex bsvg fuel = some (nextCandidate bsvg (1 + j2)) ∧
      ex (nextCandidate bsvg (1 + j2)) = false) :=
  ⟨⟨get_unique_filename_loop_spec ex path base ext j1 1 fuel h1 hfree1 hbusy1, hfree1⟩,
   ⟨get_next_filename_loop_spec ex bsvg j2 1 fuel h2 hfree2 hbusy2, hfree2⟩⟩

/-- C9 witness: a directory in which `P/b.xlsx` and `B_v1.svg` already
exist, so the searches return version 2 of each scheme. -/
theorem versioned_filenames_are_fresh_witness :
    (get_unique_filename (fun s => s == "P/b.xlsx" || s == "B_v1.svg") "P" "b" "xlsx" 3 =
        some (uniqueCandidate "P" "b" "xlsx" 2) ∧
      (fun s => s == "P/b.xlsx" || s == "B_v1.svg") (uniqueCandidate "P" "b" "xlsx" 2) = false) ∧
    (get_next_filename (fun s => s == "P/b.xlsx" || s == "B_v1.svg") "B" 3 =
        some (nextCandidate "B" 2) ∧
      (fun s => s == "P/b.xlsx" || s == "B_v1.svg") (nextCandidate "B" 2) = false) :=
  versioned_filenames_are_fresh (fun s => s == "P/b.xlsx" || s == "B_v1.svg")
    "P" "b" "xlsx" "B" 1 1 3 (by decide) (by decide) (by decide) (by decide)
    (by decide) (by decide)

/-- C10: applying the mask `valid_indices x` to the three equally long
columns `x`, `y`, `y_sd` keeps exactly the rows whose `Conc` value is
strictly positive: the filtered series have equal lengths, every retained
`x` value is positive (so `log10(min(x))` and `log10(max(x))` are taken on
positive values), and zipping the filtered series row by row gives exactly
the positively-`Conc`ed rows of the original data in order. -/
theorem valid_indices_filter_aligned (x y sd : List ℚ)
    (hxy : x.length = y.length) (hxsd : x.length = sd.length) :
    (maskSelect (valid_indices x) x).length = (maskSelect (valid_indices x) y).length ∧
    (maskSelect (valid_indices x) x).length = (maskSelect (valid_indices x) sd).length ∧
    (∀ v ∈ maskSelect (valid_indices x) x, 0 < v) ∧
    (maskSelect (valid_indices x) x).zip
        ((maskSelect (valid_indices x) y).zip (maskSelect (valid_indices x) sd)) =
      (x.zip (y.zip sd)).filter (fun p => decide (0 < p.1)) := by
  induction x generalizing y sd with
  | nil =>
    cases y with
    | nil =>
      cases sd with
      | nil => exact ⟨rfl, rfl, by simp [maskSelect, valid_indices], rfl⟩
      | cons c sds => simp at hxsd
    | cons b ys => simp at hxy
  | cons a xs ih =>
    cases y with
    | nil => simp at hxy
    | cons b ys =>
      cases sd with
      | nil => simp at hxsd
      | cons c sds =>
        have h1 : xs.length = ys.length := by simpa using hxy
        have h2 : xs.length = sds.length := by simpa using hxsd
        obtain ⟨l1, l2, pos, align⟩ := ih ys sds h1 h2
        by_cases ha : 0 < a
        · refine ⟨?_, ?_, ?_, ?_⟩
          · simpa [maskSelect, valid_indices, ha] using l1
          · simpa [maskSelect, valid_indices, ha] using l2
          · intro v hv
            rw [show maskSelect (valid_indices (a :: xs)) (a :: xs) =
                a :: maskSelect (valid_indices xs) xs by
              simp [maskSelect, valid_indices, ha]] at hv
            rcases List.mem_cons.mp hv with h | h
            · exact h ▸ ha
            · exact pos v h
          · simpa [maskSelect, valid_indices, ha] using align
        · refine ⟨?_, ?_, ?_, ?_⟩
          · simpa [maskSelect, valid_indices, ha] using l1
          · simpa [maskSelect, valid_indices, ha] using l2
          · intro v hv
            rw [show maskSelect (valid_indices (a :: xs)) (a :: xs) =
                maskSelect (valid_indices xs) xs by
              simp [maskSelect, valid_indices, ha]] at hv
            exact pos v hv
          · simpa [maskSelect, valid_indices, ha] using align

/-- C10 witness: a concrete dataset with one non-positive `Conc` row. -/
theorem valid_indices_filter_aligned_witness :
    (maskSelect (valid_indices [(1 : ℚ), -2, 3]) [(1 : ℚ), -2, 3]).length =
        (maskSelect (valid_indices [(1 : ℚ), -2, 3]) [(4 : ℚ), 5, 6]).length ∧
    (maskSelect (valid_indices [(1 : ℚ), -2, 3]) [(1 : ℚ), -2, 3]).length =
        (maskSelect (valid_indices [(1 : ℚ), -2, 3]) [(7 : ℚ), 8, 9]).length ∧
    (∀ v ∈ maskSelect (valid_indices [(1 : ℚ), -2, 3]) [(1 : ℚ), -2, 3], 0 < v) ∧
    (maskSelect (valid_indices [(1 : ℚ), -2, 3]) [(1 : ℚ), -2, 3]).zip
        ((maskSelect (valid_indices [(1 : ℚ), -2, 3]) [(4 : ℚ), 5, 6]).zip
          (maskSelect (valid_indices [(1 : ℚ), -2, 3]) [(7 : ℚ), 8, 9])) =
      (([(1 : ℚ), -2, 3]).zip (([(4 : ℚ), 5, 6]).zip [(7 : ℚ), 8, 9])).filter
        (fun p => decide (0 < p.1)) :=
  valid_indices_filter_aligned [(1 : ℚ), -2, 3] [(4 : ℚ), 5, 6] [(7 : ℚ), 8, 9] rfl rfl
